import Mathlib

/-!
Shallow embedding of the transactional core of the alvidir repository
(`src/alvidir/src/schema/transaction.rs`), together with theorems about it.

Modelling conventions:
* A stored value type `T` with identifier type `I`; the `Identify` trait is
  embedded as an explicit function `ident : T → I` (`id()` is total and
  deterministic, so a plain function is faithful).
* `Arc<RwLock<Vec<Operation<T>>>>` is embedded as an `RwLock` record holding
  the list of operations plus the poison flag; the `Arc` strong count beyond
  the transaction handle itself is tracked as an explicit `extraRefs : Nat`
  field on the transaction (`Arc::into_inner` succeeds exactly when
  `extraRefs = 0`).
* References (`&Graph`, `&Schema`) are embedded as the referenced values; the
  schema type `S` stays abstract because the core treats it opaquely.
* Mutation becomes explicit state passing: a Rust method that mutates through
  a lock returns the updated record.
-/

namespace Alvidir

variable {T I S : Type}

/-- An operation into the schema (`enum Operation` in transaction.rs):
`Save(value)` carries a full value, `Delete(id)` carries only an identifier. -/
inductive Operation (T I : Type) where
  | save (node : T)
  | delete (nodeId : I)
deriving DecidableEq

/-- Embeds `impl Identify for Operation`: the identity of an operation is the
identity of its payload (the value id for `Save`, the id itself for `Delete`). -/
def Operation.id (ident : T → I) : Operation T I → I
  | .save node => ident node
  | .delete nodeId => nodeId

/-- A value protected by `std::sync::RwLock`: the stored data together with the
poison flag set when a holder of the guard panicked. -/
structure RwLock (α : Type) where
  poisoned : Bool
  data : α
deriving DecidableEq

/-- Modelled from the spec: the `Graph` type lives outside the provided
sources; section 6 fixes its interface (`get`, `contains`, `insert`, `remove`)
and section 3 states that no two live values share an identifier. It is
embedded as the list of live values. -/
abbrev Graph (T : Type) : Type := List T

/-- Modelled from the spec: `get(id) -> Option<Value>` returns a defensive copy
of the value stored under `id`, if any. -/
def Graph.get [DecidableEq I] (ident : T → I) (g : Graph T) (nodeId : I) : Option T :=
  List.find? (fun v => decide (ident v = nodeId)) g

/-- Modelled from the spec: `contains(id) -> bool` tests presence of `id`. -/
def Graph.contains [DecidableEq I] (ident : T → I) (g : Graph T) (nodeId : I) : Bool :=
  List.any g (fun v => decide (ident v = nodeId))

/-- Modelled from the spec: `insert(value)` stores the value, replacing any
previous value with the same identifier. -/
def Graph.insert [DecidableEq I] (ident : T → I) (g : Graph T) (node : T) : Graph T :=
  node :: List.filter (fun v => decide (ident v ≠ ident node)) g

/-- Modelled from the spec: `remove(id)` removes the value stored under `id`. -/
def Graph.remove [DecidableEq I] (ident : T → I) (g : Graph T) (nodeId : I) : Graph T :=
  List.filter (fun v => decide (ident v ≠ nodeId)) g

/-- `struct Context` (transaction.rs): a staging view holding a graph
reference, a schema reference, a shared handle to the operation log, and an
optional target. -/
structure Context (T I S : Type) where
  graph : Graph T
  schema : S
  operations : RwLock (List (Operation T I))
  target : Option T
deriving DecidableEq

/-- `impl TryDeref for Context`: `self.target.as_ref()`. -/
def Context.try_deref (c : Context T I S) : Option T :=
  c.target

/-- `impl TryDerefMut for Context`: `self.target.as_mut()`; embedded as the
optional value the mutable reference would expose. -/
def Context.try_deref_mut (c : Context T I S) : Option T :=
  c.target

/-- `Context::with_target`: assigns a target to this context. -/
def Context.with_target (c : Context T I S) (target : T) : Context T I S :=
  { c with target := some target }

/-- `<Context as Source>::get`: `operations.read()` recovers a poisoned guard
through `into_inner`, so the scan always proceeds on the stored data; the log
is scanned from most recent to oldest (`iter().rev().find`), and on no match
the read delegates to the graph. -/
def Context.get [DecidableEq I] (ident : T → I) (c : Context T I S) (nodeId : I) : Option T :=
  match List.find? (fun op => decide (Operation.id ident op = nodeId)) c.operations.data.reverse with
  | some (.save node) => some node
  | some (.delete _) => none
  | none => Graph.get ident c.graph nodeId

/-- `<Context as Source>::contains`: same reverse scan as `get`, delegating to
the graph when no operation in the log matches. -/
def Context.contains [DecidableEq I] (ident : T → I) (c : Context T I S) (nodeId : I) : Bool :=
  match List.find? (fun op => decide (Operation.id ident op = nodeId)) c.operations.data.reverse with
  | some (.save _) => true
  | some (.delete _) => false
  | none => Graph.contains ident c.graph nodeId

/-- `Context::save`: `operations.write()` recovers a poisoned guard through
`into_inner`; the operation is pushed at the end of the log. Nothing else in
the context changes. -/
def Context.save (c : Context T I S) (node : T) : Context T I S :=
  { c with operations := { c.operations with data := c.operations.data ++ [Operation.save node] } }

/-- `Context::delete`: `operations.write()` recovers a poisoned guard through
`into_inner`; the operation is pushed at the end of the log. Nothing else in
the context changes. -/
def Context.delete (c : Context T I S) (nodeId : I) : Context T I S :=
  { c with operations := { c.operations with data := c.operations.data ++ [Operation.delete nodeId] } }

/-- `struct Background` (transaction.rs): schema reference, a
`OnceLock<SchemaWriteGuard>` (embedded as the flag `guard` telling whether the
write guard has been acquired; `schemaGraph` is the graph the guard gives
exclusive access to), and the shared operation log. `extraRefs` counts the
`Arc` clones of the log held by live derived contexts. -/
structure Background (T I S : Type) where
  schema : S
  schemaGraph : Graph T
  guard : Bool
  operations : RwLock (List (Operation T I))
  extraRefs : Nat
deriving DecidableEq

/-- `impl From<&Schema> for Background`: an empty `OnceLock` and a default
(empty, unpoisoned, uniquely owned) operation log. -/
def Background.fromSchema (schema : S) (schemaGraph : Graph T) : Background T I S :=
  { schema := schema
    schemaGraph := schemaGraph
    guard := false
    operations := { poisoned := false, data := [] }
    extraRefs := 0 }

/-- `Background::begin`: `guard.get_or_init(|| self.schema.write())` acquires
the write guard once and reuses it afterwards; the returned context shares the
operation log (one more `Arc` clone) and has no target. -/
def Background.begin (bg : Background T I S) : Background T I S × Context T I S :=
  ({ bg with guard := true, extraRefs := bg.extraRefs + 1 },
   { graph := bg.schemaGraph
     schema := bg.schema
     operations := bg.operations
     target := none })

/-- The graph mutation one buffered operation performs, as the closure inside
`Background::commit` would: `Save(node)` is `guard.insert(node)`, `Delete(id)`
is `guard.remove(&id)`. -/
def applyOperation [DecidableEq I] (ident : T → I) (g : Graph T) : Operation T I → Graph T
  | .save node => Graph.insert ident g node
  | .delete nodeId => Graph.remove ident g nodeId

/-- The drained operation log applied to the graph in original append order.
This is what consuming the iterator built in `Background::commit` would
compute; see `Background.commit` for why the code never consumes it. -/
def applyLog [DecidableEq I] (ident : T → I) (g : Graph T) (ops : List (Operation T I)) : Graph T :=
  List.foldl (applyOperation ident) g ops

/-- `Background::commit`, returning the graph behind the write guard after the
call. The three early returns (no guard acquired; `Arc::into_inner` failing
because a derived context still holds the log; `RwLock::into_inner` returning
`Err` on a poisoned log) leave the graph unchanged. On the remaining path the
code runs `let _ = ops.into_iter().filter_map(|op| ...)`: the lazy iterator is
constructed and immediately dropped without ever being consumed, so none of
the insert/remove closures runs and the graph is returned unchanged as well
(`applyLog` is the function that consuming the iterator would have applied). -/
def Background.commit (bg : Background T I S) : Graph T :=
  match bg.guard with
  | false => bg.schemaGraph
  | true =>
    if bg.extraRefs ≠ 0 then bg.schemaGraph
    else if bg.operations.poisoned then bg.schemaGraph
    else bg.schemaGraph

/-- `struct Foreground` (transaction.rs): a borrow of the parent context and
an independent operation log; `extraRefs` counts the `Arc` clones of that log
held by live derived contexts. -/
structure Foreground (T I S : Type) where
  context : Context T I S
  operations : RwLock (List (Operation T I))
  extraRefs : Nat
deriving DecidableEq

/-- `impl From<&Context> for Foreground`: keeps the borrowed parent context
and creates a default (empty, unpoisoned, uniquely owned) operation log — not
a clone of the parent log handle. -/
def Foreground.fromContext (context : Context T I S) : Foreground T I S :=
  { context := context
    operations := { poisoned := false, data := [] }
    extraRefs := 0 }

/-- `Foreground::begin`: the returned context borrows the parent context graph
and schema but shares the Foreground own log (one more `Arc` clone) and has no
target. -/
def Foreground.begin (fg : Foreground T I S) : Foreground T I S × Context T I S :=
  ({ fg with extraRefs := fg.extraRefs + 1 },
   { graph := fg.context.graph
     schema := fg.context.schema
     operations := fg.operations
     target := none })

/-- `Foreground::commit`, returning the parent context operation log after the
call. Early returns leave the parent log unchanged: `Arc::into_inner` failing
(a derived context still holds the log), `RwLock::into_inner` returning `Err`
(own log poisoned), and `context.operations.write()` returning `Err` (parent
log poisoned). Otherwise `upstream_ops.extend(ops)` appends the whole own log,
in order, at the end of the parent log. -/
def Foreground.commit (fg : Foreground T I S) : RwLock (List (Operation T I)) :=
  if fg.extraRefs ≠ 0 then fg.context.operations
  else if fg.operations.poisoned then fg.context.operations
  else if fg.context.operations.poisoned then fg.context.operations
  else { fg.context.operations with data := fg.context.operations.data ++ fg.operations.data }

/-- Dropping a `Foreground` without committing runs no user code (the type has
no `Drop` impl): its own log is deallocated and the borrow of the parent
context ends, leaving the parent context exactly as it was. -/
def Foreground.drop (fg : Foreground T I S) : Context T I S :=
  fg.context

/-- A caller-issued buffering call on a context: `save(value)` or
`delete(id)`. -/
inductive Action (T I : Type) where
  | save (node : T)
  | delete (nodeId : I)
deriving DecidableEq

/-- The operation a buffering call appends to the log it is issued on. -/
def Action.toOperation : Action T I → Operation T I
  | .save node => Operation.save node
  | .delete nodeId => Operation.delete nodeId

/-- A sequence of buffering calls issued on one context, in order. -/
def Context.applyAll (c : Context T I S) : List (Action T I) → Context T I S
  | [] => c
  | .save node :: rest => Context.applyAll (c.save node) rest
  | .delete nodeId :: rest => Context.applyAll (c.delete nodeId) rest

/-! Helper lemmas. -/

/-- Finding the first element satisfying `p` is taking the head of the
filtered list. -/
theorem find?_eq_head?_filter {α : Type} (p : α → Bool) :
    ∀ l : List α, l.find? p = (l.filter p).head?
  | [] => rfl
  | a :: t => by
    by_cases h : p a
    · rw [List.find?_cons_of_pos _ h, List.filter_cons_of_pos h, List.head?_cons]
    · rw [List.find?_cons_of_neg _ h, List.filter_cons_of_neg h, find?_eq_head?_filter p t]

/-- Finding the first match in the reversed list is taking the last match of
the list itself. -/
theorem find?_reverse_eq_getLast?_filter {α : Type} (p : α → Bool) (l : List α) :
    l.reverse.find? p = (l.filter p).getLast? := by
  rw [find?_eq_head?_filter, List.filter_reverse, List.head?_reverse]

/-- `Graph.contains` and `Graph.get` of the spec-modelled graph agree. -/
theorem Graph.contains_eq_isSome_get [DecidableEq I] (ident : T → I) (g : Graph T) (nodeId : I) :
    Graph.contains ident g nodeId = (Graph.get ident g nodeId).isSome := by
  induction g with
  | nil => rfl
  | cons a t ih =>
    by_cases h : ident a = nodeId
    · simp [Graph.contains, Graph.get, h]
    · simpa [Graph.contains, Graph.get, h] using ih

/-- Issuing a sequence of buffering calls appends exactly the corresponding
operations, in order, at the end of the log of the context they are issued
on. -/
theorem Context.applyAll_operations_data (c : Context T I S) (acts : List (Action T I)) :
    (c.applyAll acts).operations.data = c.operations.data ++ acts.map Action.toOperation := by
  induction acts generalizing c with
  | nil => simp [Context.applyAll]
  | cons a rest ih =>
    cases a with
    | save node => simp [Context.applyAll, ih, Context.save, Action.toOperation]
    | delete nodeId => simp [Context.applyAll, ih, Context.delete, Action.toOperation]

/-- Buffering calls never touch the graph reference of the context. -/
theorem Context.applyAll_graph (c : Context T I S) (acts : List (Action T I)) :
    (c.applyAll acts).graph = c.graph := by
  induction acts generalizing c with
  | nil => rfl
  | cons a rest ih =>
    cases a with
    | save node => simpa [Context.applyAll, Context.save] using ih (c.save node)
    | delete nodeId => simpa [Context.applyAll, Context.delete] using ih (c.delete nodeId)

/-! Claim theorems. -/

/-- Claim C2: for every context and every sequence of buffered operations,
`get(id)` scans the log from most recent to oldest and answers from the first
(that is, latest) operation whose identity equals `id`: the saved value for
`Save`, nothing for `Delete`, and the underlying graph read when no operation
in the log matches. -/
theorem context_get_last_write_wins [DecidableEq I] (ident : T → I)
    (c : Context T I S) (nodeId : I) :
    Context.get ident c nodeId =
      match (c.operations.data.filter (fun op => decide (Operation.id ident op = nodeId))).getLast? with
      | some (.save node) => some node
      | some (.delete _) => none
      | none => Graph.get ident c.graph nodeId := by
  unfold Context.get
  rw [find?_reverse_eq_getLast?_filter]

/-- Claim C8: for every context and every id, `contains(id)` is consistent
with `get(id)` — true exactly when `get` returns a value — provided the
underlying graph `contains` and `get` are consistent in the same sense. -/
theorem context_contains_iff_get_isSome [DecidableEq I] (ident : T → I)
    (c : Context T I S) (nodeId : I)
    (h : Graph.contains ident c.graph nodeId = (Graph.get ident c.graph nodeId).isSome) :
    Context.contains ident c nodeId = (Context.get ident c nodeId).isSome := by
  unfold Context.contains Context.get
  cases hfind : List.find? (fun op => decide (Operation.id ident op = nodeId))
      c.operations.data.reverse with
  | none => simpa using h
  | some op => cases op <;> simp

/-- Witness for C8 at a concrete context. -/
theorem context_contains_iff_get_isSome_witness :
    Context.contains (fun n => n)
        ({ graph := [5], schema := (), operations := { poisoned := false, data := [Operation.save 3] },
           target := none } : Context Nat Nat Unit) 5 =
      (Context.get (fun n => n)
        ({ graph := [5], schema := (), operations := { poisoned := false, data := [Operation.save 3] },
           target := none } : Context Nat Nat Unit) 5).isSome :=
  context_contains_iff_get_isSome (fun n => n) _ 5 (by decide)

/-- Claim C5: `save(value)` and `delete(id)` are pure appends: each appends
exactly one operation at the end of the log, leaves every other component of
the context (graph, schema, target, poison flag) unchanged, and never fails;
appending `Delete(id)` right after `Save` of a value with that id makes
`get(id)` return nothing while the graph component is untouched. -/
theorem context_save_delete_pure_append [DecidableEq I] (ident : T → I)
    (c : Context T I S) (node : T) (nodeId : I) :
    ((c.save node).operations.data = c.operations.data ++ [Operation.save node]
      ∧ (c.save node).graph = c.graph ∧ (c.save node).schema = c.schema
      ∧ (c.save node).target = c.target
      ∧ (c.save node).operations.poisoned = c.operations.poisoned)
    ∧ ((c.delete nodeId).operations.data = c.operations.data ++ [Operation.delete nodeId]
      ∧ (c.delete nodeId).graph = c.graph ∧ (c.delete nodeId).schema = c.schema
      ∧ (c.delete nodeId).target = c.target
      ∧ (c.delete nodeId).operations.poisoned = c.operations.poisoned)
    ∧ Context.get ident ((c.save node).delete (ident node)) (ident node) = none
    ∧ ((c.save node).delete (ident node)).graph = c.graph := by
  refine ⟨⟨rfl, rfl, rfl, rfl, rfl⟩, ⟨rfl, rfl, rfl, rfl, rfl⟩, ?_, rfl⟩
  simp [Context.get, Context.save, Context.delete, Operation.id]

/-- Claim C9: the context returned by `begin()` — on a Background or a
Foreground transaction — has no target, so `try_deref` and `try_deref_mut`
return nothing; `with_target` sets only the target, leaving the graph
reference, the schema reference, and the shared operation log handle
unchanged. -/
theorem begin_context_has_no_target (bg : Background T I S) (fg : Foreground T I S)
    (c : Context T I S) (t : T) :
    (Background.begin bg).2.target = none
    ∧ (Background.begin bg).2.try_deref = none
    ∧ (Background.begin bg).2.try_deref_mut = none
    ∧ (Foreground.begin fg).2.target = none
    ∧ (Foreground.begin fg).2.try_deref = none
    ∧ (Foreground.begin fg).2.try_deref_mut = none
    ∧ (c.with_target t).try_deref = some t
    ∧ (c.with_target t).try_deref_mut = some t
    ∧ (c.with_target t).graph = c.graph
    ∧ (c.with_target t).schema = c.schema
    ∧ (c.with_target t).operations = c.operations :=
  ⟨rfl, rfl, rfl, rfl, rfl, rfl, rfl, rfl, rfl, rfl, rfl⟩

/-- Claim C10: a newly created Background or Foreground transaction starts
with an empty operation log, so the context returned by its first `begin()`
is observationally equal to the underlying graph as a source: `get` and
`contains` agree with the graph for every id. -/
theorem fresh_transaction_context_agrees_with_graph [DecidableEq I] (ident : T → I)
    (schema : S) (g : Graph T) (c : Context T I S) (nodeId : I) :
    ((Background.fromSchema schema g : Background T I S).begin.2.operations.data = []
      ∧ Context.get ident (Background.fromSchema schema g : Background T I S).begin.2 nodeId
          = Graph.get ident g nodeId
      ∧ Context.contains ident (Background.fromSchema schema g : Background T I S).begin.2 nodeId
          = Graph.contains ident g nodeId)
    ∧ ((Foreground.fromContext c).begin.2.operations.data = []
      ∧ Context.get ident (Foreground.fromContext c).begin.2 nodeId
          = Graph.get ident c.graph nodeId
      ∧ Context.contains ident (Foreground.fromContext c).begin.2 nodeId
          = Graph.contains ident c.graph nodeId) :=
  ⟨⟨rfl, rfl, rfl⟩, ⟨rfl, rfl, rfl⟩⟩

/-- Claim C1: evaluation of `Background::commit` at a transaction where every
precondition of the claim holds — guard acquired, sole owner of the log, one
`Save` buffered over an empty graph. The code builds the apply iterator with
`let _ = ops.into_iter().filter_map(...)` and drops it unconsumed, so the
graph stays empty; consuming it (`applyLog`) would have stored the value and
made the graph read return it, as the claim and the commit documentation
require. -/
theorem background_commit_drops_buffered_log :
    Background.commit
        ({ schema := (), schemaGraph := [], guard := true,
           operations := { poisoned := false, data := [Operation.save 0] },
           extraRefs := 0 } : Background Nat Nat Unit) = []
    ∧ Graph.get (fun n => n) (applyLog (fun n => n) ([] : Graph Nat) [Operation.save 0]) 0
        = some 0 := by
  exact ⟨rfl, rfl⟩

/-- Claim C3: `Background::commit` mutates the graph only when a write guard
was acquired by a prior `begin()` and the transaction is the sole owner of its
operation log; if either condition fails, commit is a no-op and the graph is
left entirely unchanged. -/
theorem background_commit_noop_on_violation (bg : Background T I S) :
    ((bg.guard = false ∨ bg.extraRefs ≠ 0) → Background.commit bg = bg.schemaGraph)
    ∧ (Background.commit bg ≠ bg.schemaGraph → bg.guard = true ∧ bg.extraRefs = 0) := by
  have hcommit : Background.commit bg = bg.schemaGraph := by
    unfold Background.commit
    cases bg.guard
    · rfl
    · simp
  exact ⟨fun _ => hcommit, fun hne => absurd hcommit hne⟩

/-- Witness for C3: an uninitialized transaction (no guard) with a buffered
operation; commit leaves the graph unchanged. -/
theorem background_commit_noop_on_violation_witness :
    Background.commit
        ({ schema := (), schemaGraph := [3], guard := false,
           operations := { poisoned := false, data := [Operation.save 7] },
           extraRefs := 0 } : Background Nat Nat Unit) = [3] :=
  (background_commit_noop_on_violation _).1 (Or.inl rfl)

/-- A Foreground transaction that is sole owner of its log but whose own log
lock is poisoned; used to refute claim C4 as universally stated. -/
def poisonedSoleOwnerFg : Foreground Nat Nat Unit :=
  { context := { graph := [], schema := (),
                 operations := { poisoned := false, data := [] }, target := none }
    operations := { poisoned := true, data := [Operation.save 3] }
    extraRefs := 0 }

/-- Counterexample to claim C4 as stated: this Foreground transaction is the
sole owner of its log (`extraRefs = 0`) and its log holds one operation, yet
`commit()` appends nothing to the parent log, because `RwLock::into_inner`
returns `Err` on the poisoned log and the code returns early. -/
theorem foreground_commit_sole_owner_cex :
    poisonedSoleOwnerFg.extraRefs = 0
    ∧ poisonedSoleOwnerFg.operations.data = [Operation.save 3]
    ∧ (Foreground.commit poisonedSoleOwnerFg).data
        ≠ poisonedSoleOwnerFg.context.operations.data ++ poisonedSoleOwnerFg.operations.data := by
  decide

/-- Claim C4 (amended: the Foreground own log and the parent log must also be
unpoisoned): a sole-owner Foreground `commit()` appends its entire operation
log, in original order, onto the end of the parent context shared log; every
entry already present in the parent log stays unchanged and in place (the old
log is a prefix of the new one), and the graph is not an input or output of
the merge at all. -/
theorem foreground_commit_appends_in_order (fg : Foreground T I S)
    (h0 : fg.extraRefs = 0) (h1 : fg.operations.poisoned = false)
    (h2 : fg.context.operations.poisoned = false) :
    Foreground.commit fg
      = { fg.context.operations with data := fg.context.operations.data ++ fg.operations.data } := by
  unfold Foreground.commit
  simp [h0, h1, h2]

/-- A committable Foreground transaction over a parent holding one entry. -/
def committableFg : Foreground Nat Nat Unit :=
  { context := { graph := [], schema := (),
                 operations := { poisoned := false, data := [Operation.save 1] }, target := none }
    operations := { poisoned := false, data := [Operation.delete 2] }
    extraRefs := 0 }

/-- Witness for C4: committing `committableFg` appends its one operation after
the parent existing entry. -/
theorem foreground_commit_appends_in_order_witness :
    Foreground.commit committableFg
      = { poisoned := false, data := [Operation.save 1, Operation.delete 2] } := by
  have h := foreground_commit_appends_in_order committableFg rfl rfl rfl
  exact h

/-- A sole-owner Foreground transaction with a healthy log whose parent
context log lock is poisoned; used to refute claim C6 as stated. -/
def poisonedParentFg : Foreground Nat Nat Unit :=
  { context := { graph := [], schema := (),
                 operations := { poisoned := true, data := [] }, target := none }
    operations := { poisoned := false, data := [Operation.save 7] }
    extraRefs := 0 }

/-- Counterexample to claim C6 as stated: in `Foreground::commit` the write
acquisition of the poisoned parent log does not recover and proceed — the
commit returns early and the buffered operation is never appended, even
though the transaction is the sole owner of its healthy log. -/
theorem foreground_commit_poison_not_recovered_cex :
    poisonedParentFg.extraRefs = 0
    ∧ poisonedParentFg.operations.poisoned = false
    ∧ Foreground.commit poisonedParentFg = poisonedParentFg.context.operations
    ∧ Foreground.commit poisonedParentFg
        ≠ { poisonedParentFg.context.operations with
            data := poisonedParentFg.context.operations.data ++ poisonedParentFg.operations.data } := by
  decide

/-- Claim C6 (amended): the lock acquisitions in `Context::get`, `contains`,
`save` and `delete` recover a poisoned operation-log lock and proceed with the
data it holds — their results depend only on the stored data, never on the
poison flag — while the commit-path acquisitions (`into_inner` on the drained
log, `write()` on the parent log) treat poison as a violation and turn the
commit into a silent no-op; in every case poisoning is never propagated to
the caller as an error. -/
theorem lock_poisoning_handling [DecidableEq I] (ident : T → I)
    (c : Context T I S) (b : Bool) (nodeId : I) (node : T)
    (d : List (Operation T I)) (bg : Background T I S) (fg : Foreground T I S) :
    Context.get ident { c with operations := { c.operations with poisoned := b } } nodeId
        = Context.get ident c nodeId
    ∧ Context.contains ident { c with operations := { c.operations with poisoned := b } } nodeId
        = Context.contains ident c nodeId
    ∧ (Context.save { c with operations := { c.operations with poisoned := b } } node).operations.data
        = c.operations.data ++ [Operation.save node]
    ∧ (Context.delete { c with operations := { c.operations with poisoned := b } } nodeId).operations.data
        = c.operations.data ++ [Operation.delete nodeId]
    ∧ Background.commit { bg with operations := { poisoned := true, data := d } }
        = bg.schemaGraph
    ∧ Foreground.commit { fg with operations := { poisoned := true, data := d } }
        = fg.context.operations := by
  refine ⟨rfl, rfl, rfl, rfl, ?_, ?_⟩
  · unfold Background.commit
    cases bg.guard
    · rfl
    · split
      · rfl
      · simp
  · unfold Foreground.commit
    split
    · rfl
    · simp

/-- Claim C7: a Foreground transaction created from a context starts with a
fresh, empty, uniquely-owned log — not a handle to the parent log — and the
context its `begin()` returns buffers exclusively into that fresh log: after
any sequence of saves and deletes through it, the buffered operations are
exactly those calls, in order, held in the Foreground log, while the parent
context (its log included) is left exactly as it was; dropping the Foreground
runs no code and hands the parent context back unchanged, so uncommitted
nested work never reaches the parent log or the graph. -/
theorem foreground_drop_leaves_parent_untouched (c : Context T I S) (acts : List (Action T I)) :
    (Foreground.fromContext c).operations = { poisoned := false, data := [] }
    ∧ (Foreground.fromContext c).context = c
    ∧ (Foreground.fromContext c).begin.2.operations.data = []
    ∧ ((Foreground.fromContext c).begin.2.applyAll acts).operations.data
        = acts.map Action.toOperation
    ∧ ((Foreground.fromContext c).begin.2.applyAll acts).graph = c.graph
    ∧ Foreground.drop (Foreground.fromContext c) = c := by
  refine ⟨rfl, rfl, rfl, ?_, ?_, rfl⟩
  · simpa using Context.applyAll_operations_data (Foreground.fromContext c).begin.2 acts
  · exact Context.applyAll_graph _ acts

end Alvidir
